import Mathlib

/-!
# Batch hypothesis-testing engine of the cptac use-case notebooks

The repository's notebook `usecase07_trans_genetic_effect.ipynb` binarizes a
mutation-status column and hands the resulting table to a batch t-test engine
(`wrap_ttest`, specified as `run_batch_ttest`): one two-sample t-test per
measurement column, Bonferroni correction, and a ranked table of the
significant columns.  The engine itself is not part of the repository's
source, so it is modelled here from its specification; the binarization loop
is modelled from the notebook code.
-/

namespace Cptac

/-- A numeric cell of the table: a measurement or a missing-value marker. -/
abbrev Cell := Option ℚ

/-- Modelled from the spec: the input table of `run_batch_ttest` (the engine's
code is not in the repository).  Per the spec's data model, a typed tabular
structure: one labelled column of optional categorical values (the grouping
column) plus a mapping from column name to a homogeneous sequence of optional
numeric values (the measurement columns). -/
structure Table where
  labelName : String
  labels : List (Option String)
  numCols : List (String × List Cell)
deriving Repr, DecidableEq

/-- Modelled from the spec: the failure taxonomy of `run_batch_ttest`. -/
inductive TError where
  | InvalidGroupingError : TError
  | ColumnNotFoundError : String → TError
  | EmptyInputError : TError
deriving Repr, DecidableEq

/-- Modelled from the spec: the result of `run_batch_ttest` — either the
`EmptyResult` sentinel (no significant column) or a ranked table of
(column name, corrected p-value) pairs. -/
inductive BatchResult where
  | EmptyResult : BatchResult
  | ResultTable : List (String × ℚ) → BatchResult
deriving Repr, DecidableEq

instance {ε α : Type} [DecidableEq ε] [DecidableEq α] :
    DecidableEq (Except ε α) := fun a b =>
  match a, b with
  | .ok x, .ok y =>
    if h : x = y then .isTrue (by rw [h]) else .isFalse (by simp [h])
  | .error x, .error y =>
    if h : x = y then .isTrue (by rw [h]) else .isFalse (by simp [h])
  | .ok _, .error _ => .isFalse (by simp)
  | .error _, .ok _ => .isFalse (by simp)

/-- The rows of a result: the sentinel carries none. -/
def BatchResult.rows : BatchResult → List (String × ℚ)
  | .EmptyResult => []
  | .ResultTable l => l

/-- Look up a measurement column by name. -/
def lookupCol (t : Table) (name : String) : Option (List Cell) :=
  (t.numCols.find? (fun p => p.1 == name)).map Prod.snd

/-- The distinct non-missing labels of the grouping column, in order of first
appearance. -/
def distinctLabels (t : Table) : List String :=
  (t.labels.filterMap id).dedup

/-- The non-missing values of a measurement column restricted to the rows
whose grouping label equals `g` (missingness per cell: a row missing this
measurement is dropped for this column only). -/
def groupVals (labels : List (Option String)) (g : String) (col : List Cell) :
    List ℚ :=
  (labels.zip col).filterMap (fun p => if p.1 = some g then p.2 else none)

/-- Arithmetic mean of a sample. -/
def mean (xs : List ℚ) : ℚ := xs.sum / (xs.length : ℚ)

/-- Unbiased sample variance of a sample. -/
def svar (xs : List ℚ) : ℚ :=
  ((xs.map (fun x => (x - mean xs) * (x - mean xs))).sum) / ((xs.length : ℚ) - 1)

/-- Modelled from the spec: a column is testable on groups `a`, `b` when each
group has at least 2 non-missing values and not both sample variances vanish
(the zero-variance-in-both-groups case is skipped, following the spec's
recommended skip policy). -/
def testable (a b : List ℚ) : Bool :=
  decide ((2 ≤ a.length ∧ 2 ≤ b.length) ∧ ¬(svar a = 0 ∧ svar b = 0))

/-- The squared two-sample t statistic: pooled (Student) when `ev` is true,
unpooled (Welch) otherwise.  A two-sided p-value depends on the t statistic
only through its absolute value, hence through this square. -/
def tsqStat (ev : Bool) (a b : List ℚ) : ℚ :=
  if ev then
    let n1 : ℚ := a.length
    let n2 : ℚ := b.length
    let sp2 := ((n1 - 1) * svar a + (n2 - 1) * svar b) / (n1 + n2 - 2)
    (mean a - mean b) * (mean a - mean b) / (sp2 * (1 / n1 + 1 / n2))
  else
    (mean a - mean b) * (mean a - mean b) /
      (svar a / (a.length : ℚ) + svar b / (b.length : ℚ))

/-- Degrees of freedom: `n₁ + n₂ - 2` (Student) or the Welch–Satterthwaite
approximation (Welch). -/
def dfStat (ev : Bool) (a b : List ℚ) : ℚ :=
  if ev then (a.length : ℚ) + (b.length : ℚ) - 2
  else
    let u := svar a / (a.length : ℚ)
    let v := svar b / (b.length : ℚ)
    (u + v) * (u + v) /
      (u * u / ((a.length : ℚ) - 1) + v * v / ((b.length : ℚ) - 1))

/-- Modelled from the spec: the raw p-value of one measurement column, or
`none` when the column is untestable and skipped.  A two-sided two-sample
t-test p-value is a function of the squared t statistic and the degrees of
freedom alone, so the engine is parametric in that function `pv`. -/
def colPValue (pv : ℚ → ℚ → ℚ) (ev : Bool) (labels : List (Option String))
    (g1 g2 : String) (col : List Cell) : Option ℚ :=
  let a := groupVals labels g1 col
  let b := groupVals labels g2 col
  if testable a b then some (pv (tsqStat ev a b) (dfStat ev a b)) else none

/-- Modelled from the spec: raw p-values of the testable requested columns, in
request order (columns failing the testability check are skipped). -/
def rawPValues (pv : ℚ → ℚ → ℚ) (t : Table) (g1 g2 : String)
    (vcs : List String) (ev : Bool) : List (String × ℚ) :=
  vcs.filterMap (fun c =>
    (lookupCol t c).bind (fun col =>
      (colPValue pv ev t.labels g1 g2 col).map (fun p => (c, p))))

/-- Modelled from the spec: Bonferroni correction and thresholding — each raw
p-value is multiplied by the number of columns actually tested, and a column
is retained exactly when its corrected p-value is at most `alpha`. -/
def retained (pv : ℚ → ℚ → ℚ) (t : Table) (g1 g2 : String)
    (vcs : List String) (alpha : ℚ) (ev : Bool) : List (String × ℚ) :=
  let raw := rawPValues pv t g1 g2 vcs ev
  let n : ℚ := raw.length
  (raw.map (fun x => (x.1, x.2 * n))).filter (fun x => decide (x.2 ≤ alpha))

/-- The comparison used to rank the retained columns: ascending corrected
p-value, ties broken by position in the retained sequence (which follows the
original order of `value_columns`). -/
def rankLE (x y : ℕ × String × ℚ) : Prop :=
  x.2.2 < y.2.2 ∨ (x.2.2 = y.2.2 ∧ x.1 ≤ y.1)

instance : DecidableRel rankLE := fun x y => by
  unfold rankLE
  infer_instance

/-- Modelled from the spec: the retained columns tagged with their position
and sorted ascending by corrected p-value, ties by original order. -/
def sortedRetained (pv : ℚ → ℚ → ℚ) (t : Table) (g1 g2 : String)
    (vcs : List String) (alpha : ℚ) (ev : Bool) : List (ℕ × String × ℚ) :=
  List.insertionSort rankLE ((retained pv t g1 g2 vcs alpha ev).enum)

/-- Modelled from the spec: the engine's main pipeline once the grouping
column has been validated and its two distinct labels `g1`, `g2` fixed.
Requested columns are looked up (an absent one fails with
`ColumnNotFoundError`), tested, corrected, thresholded and ranked; when no
column passes, the `EmptyResult` sentinel is returned. -/
def runWithGroups (pv : ℚ → ℚ → ℚ) (t : Table) (g1 g2 : String)
    (vcs : List String) (alpha : ℚ) (ev : Bool) :
    Except TError BatchResult :=
  match vcs.find? (fun c => (lookupCol t c).isNone) with
  | some c => .error (.ColumnNotFoundError c)
  | none =>
    let r := sortedRetained pv t g1 g2 vcs alpha ev
    if r.isEmpty then .ok .EmptyResult
    else .ok (.ResultTable (r.map (fun x => (x.2.1, x.2.2))))

/-- Modelled from the spec: `run_batch_ttest(table, group_column,
value_columns, alpha, equal_var)` (the engine's code is not in the
repository).  Validation follows the order in which the spec lists the
inputs: the grouping column must exist and must carry exactly two distinct
non-missing labels (`InvalidGroupingError` otherwise), `value_columns` must
be non-empty (`EmptyInputError`) and each of its names must exist
(`ColumnNotFoundError`); then per-column tests, Bonferroni correction and
ranking as in `runWithGroups`. -/
def run_batch_ttest (pv : ℚ → ℚ → ℚ) (t : Table) (group_column : String)
    (vcs : List String) (alpha : ℚ) (ev : Bool) :
    Except TError BatchResult :=
  if group_column = t.labelName then
    match distinctLabels t with
    | [g1, g2] =>
      if vcs = [] then .error .EmptyInputError
      else runWithGroups pv t g1 g2 vcs alpha ev
    | _ => .error .InvalidGroupingError
  else .error (.ColumnNotFoundError group_column)

/-- Modelled from the spec: the engine as a computation over a caller-owned
mutable table, reading the table through the state monad and never writing
it ("pure function over its inputs; must not mutate the passed-in table"). -/
def run_batch_ttest_m (pv : ℚ → ℚ → ℚ) (group_column : String)
    (vcs : List String) (alpha : ℚ) (ev : Bool) :
    StateM Table (Except TError BatchResult) := do
  let t1 ← get
  if group_column = t1.labelName then
    let t2 ← get
    match distinctLabels t2 with
    | [g1, g2] =>
      if vcs = [] then pure (.error .EmptyInputError)
      else do
        let t3 ← get
        pure (runWithGroups pv t3 g1 g2 vcs alpha ev)
    | _ => pure (.error .InvalidGroupingError)
  else pure (.error (.ColumnNotFoundError group_column))

/-- The notebook's binarization rule (cells at `Gene Mutation Status` /
`ARID1A Mutation Status`): a row whose mutation-status entry differs from
`Wildtype_Tumor` is labelled `Mutated`, any other row `Wildtype`. -/
def binarizeStatus (s : Option String) : String :=
  if s ≠ some "Wildtype_Tumor" then "Mutated" else "Wildtype"

/-- The notebook's binarization loop: every row receives a grouping label
computed by `binarizeStatus` from its mutation-status entry. -/
def binarizedLabels (statuses : List (Option String)) : List (Option String) :=
  statuses.map (fun s => some (binarizeStatus s))

/-- A concrete two-sided p-value surrogate used to instantiate the engine on
concrete inputs: decreasing in the squared t statistic. -/
def pvDemo : ℚ → ℚ → ℚ := fun tsq _ => 1 / (1 + tsq)

/-- Scenario-A-style table: grouping column `G` with labels Mutated/Wildtype,
measurement `X` with clearly separated groups and `Z` constant (zero variance
in both groups). -/
def tblDemo : Table :=
  { labelName := "G"
  , labels := [some "Mutated", some "Mutated", some "Wildtype", some "Wildtype"]
  , numCols := [("X", [some 10, some 11, some 0, some 1]),
                ("Z", [some 5, some 5, some 5, some 5])] }

/-- A valid two-label table in which every group has a single value, so the
only measurement column is untestable and the engine returns the sentinel. -/
def tblTiny : Table :=
  { labelName := "G"
  , labels := [some "A", some "B"]
  , numCols := [("X", [some 1, some 2])] }

/-- A constant surrogate p-value: evaluating the engine with it never forces
the t statistic. -/
def pvHalf : ℚ → ℚ → ℚ := fun _ _ => 1/2

/-- A valid two-label table with one testable measurement column (two values
per group, non-zero variance in the first group). -/
def tblTwo : Table :=
  { labelName := "G"
  , labels := [some "A", some "A", some "B", some "B"]
  , numCols := [("X", [some 0, some 2, some 0, some 1])] }

/-- A table whose grouping column carries three distinct labels. -/
def tblThree : Table :=
  { labelName := "G"
  , labels := [some "a", some "b", some "c"]
  , numCols := [("X", [some 1, some 2, some 3])] }

/-! ## Helper lemmas -/

lemma nodup_two_vals_length_le {α : Type} (a b : α) :
    ∀ m : List α, m.Nodup → (∀ x ∈ m, x = a ∨ x = b) → m.length ≤ 2
  | [], _, _ => by simp
  | [_], _, _ => by simp
  | [_, _], _, _ => by simp
  | x :: y :: z :: _, hn, hm => by
    simp only [List.nodup_cons, List.mem_cons, not_or] at hn
    rcases hm x (by simp) with hx | hx <;>
      rcases hm y (by simp) with hy | hy <;>
        rcases hm z (by simp) with hz | hz <;>
          simp_all

lemma length_dedup_le_two {α : Type} [DecidableEq α] (l : List α) (a b : α)
    (h : ∀ x ∈ l, x = a ∨ x = b) : l.dedup.length ≤ 2 :=
  nodup_two_vals_length_le a b l.dedup l.nodup_dedup
    (fun x hx => h x (l.dedup_subset hx))

lemma testable_symm (a b : List ℚ) : testable a b = testable b a := by
  unfold testable
  apply decide_eq_decide.mpr
  tauto

lemma tsqStat_symm (ev : Bool) (a b : List ℚ) :
    tsqStat ev a b = tsqStat ev b a := by
  cases ev <;> simp only [tsqStat] <;> ring_nf

lemma dfStat_symm (ev : Bool) (a b : List ℚ) :
    dfStat ev a b = dfStat ev b a := by
  cases ev <;> simp only [dfStat] <;> ring_nf

lemma colPValue_symm (pv : ℚ → ℚ → ℚ) (ev : Bool)
    (labels : List (Option String)) (g1 g2 : String) (col : List Cell) :
    colPValue pv ev labels g1 g2 col = colPValue pv ev labels g2 g1 col := by
  simp only [colPValue]
  rw [testable_symm, tsqStat_symm, dfStat_symm]

lemma rawPValues_symm (pv : ℚ → ℚ → ℚ) (t : Table) (g1 g2 : String)
    (vcs : List String) (ev : Bool) :
    rawPValues pv t g1 g2 vcs ev = rawPValues pv t g2 g1 vcs ev := by
  unfold rawPValues
  have h : (fun c => (lookupCol t c).bind fun col =>
        (colPValue pv ev t.labels g1 g2 col).map fun p => (c, p))
      = (fun c => (lookupCol t c).bind fun col =>
        (colPValue pv ev t.labels g2 g1 col).map fun p => (c, p)) := by
    funext c
    have h2 : (fun col => (colPValue pv ev t.labels g1 g2 col).map
          fun p => (c, p))
        = (fun col => (colPValue pv ev t.labels g2 g1 col).map
          fun p => (c, p)) := by
      funext col
      rw [colPValue_symm]
    rw [h2]
  rw [h]

lemma retained_symm (pv : ℚ → ℚ → ℚ) (t : Table) (g1 g2 : String)
    (vcs : List String) (alpha : ℚ) (ev : Bool) :
    retained pv t g1 g2 vcs alpha ev = retained pv t g2 g1 vcs alpha ev := by
  unfold retained
  rw [rawPValues_symm]

lemma sortedRetained_symm (pv : ℚ → ℚ → ℚ) (t : Table) (g1 g2 : String)
    (vcs : List String) (alpha : ℚ) (ev : Bool) :
    sortedRetained pv t g1 g2 vcs alpha ev
      = sortedRetained pv t g2 g1 vcs alpha ev := by
  unfold sortedRetained
  rw [retained_symm]

lemma mem_rawPValues {pv : ℚ → ℚ → ℚ} {t : Table} {g1 g2 : String}
    {vcs : List String} {ev : Bool} {c : String} {p : ℚ} :
    (c, p) ∈ rawPValues pv t g1 g2 vcs ev ↔
      c ∈ vcs ∧ ∃ col, lookupCol t c = some col ∧
        colPValue pv ev t.labels g1 g2 col = some p := by
  simp only [rawPValues, List.mem_filterMap, Option.bind_eq_some,
    Option.map_eq_some', Prod.mk.injEq]
  constructor
  · rintro ⟨a, ha, col, hcol, q, hq, rfl, rfl⟩
    exact ⟨ha, col, hcol, hq⟩
  · rintro ⟨hc, col, hcol, hq⟩
    exact ⟨c, hc, col, hcol, p, hq, rfl, rfl⟩

lemma mem_retained {pv : ℚ → ℚ → ℚ} {t : Table} {g1 g2 : String}
    {vcs : List String} {alpha : ℚ} {ev : Bool} {c : String} {q : ℚ} :
    (c, q) ∈ retained pv t g1 g2 vcs alpha ev ↔
      ∃ p, (c, p) ∈ rawPValues pv t g1 g2 vcs ev ∧
        q = p * ((rawPValues pv t g1 g2 vcs ev).length : ℚ) ∧ q ≤ alpha := by
  simp only [retained, List.mem_filter, List.mem_map, Prod.mk.injEq,
    decide_eq_true_eq]
  constructor
  · rintro ⟨⟨⟨c', p⟩, hx, rfl, rfl⟩, hle⟩
    exact ⟨p, hx, rfl, hle⟩
  · rintro ⟨p, hp, rfl, hle⟩
    exact ⟨⟨(c, p), hp, rfl, rfl⟩, hle⟩

lemma map_fst_rawPValues_sublist (pv : ℚ → ℚ → ℚ) (t : Table)
    (g1 g2 : String) (ev : Bool) :
    ∀ vcs : List String,
      ((rawPValues pv t g1 g2 vcs ev).map Prod.fst).Sublist vcs
  | [] => by simp [rawPValues]
  | c :: rest => by
    rw [rawPValues, List.filterMap_cons]
    rcases h : (lookupCol t c).bind
        (fun col => (colPValue pv ev t.labels g1 g2 col).map
          (fun p => (c, p))) with _ | x
    · exact (map_fst_rawPValues_sublist pv t g1 g2 ev rest).cons c
    · obtain ⟨col, hcol, q, hq, rfl⟩ : ∃ col, lookupCol t c = some col ∧
          ∃ q, colPValue pv ev t.labels g1 g2 col = some q ∧ (c, q) = x := by
        simpa [Option.bind_eq_some, Option.map_eq_some'] using h
      simpa using (map_fst_rawPValues_sublist pv t g1 g2 ev rest).cons₂ c

lemma map_fst_retained_sublist (pv : ℚ → ℚ → ℚ) (t : Table) (g1 g2 : String)
    (vcs : List String) (alpha : ℚ) (ev : Bool) :
    ((retained pv t g1 g2 vcs alpha ev).map Prod.fst).Sublist vcs := by
  have h1 : (retained pv t g1 g2 vcs alpha ev).Sublist
      ((rawPValues pv t g1 g2 vcs ev).map
        (fun x => (x.1, x.2 * ((rawPValues pv t g1 g2 vcs ev).length : ℚ)))) :=
    List.filter_sublist _
  have h2 := h1.map Prod.fst
  rw [List.map_map] at h2
  have h3 : (Prod.fst ∘ fun x : String × ℚ =>
      (x.1, x.2 * ((rawPValues pv t g1 g2 vcs ev).length : ℚ))) = Prod.fst := by
    funext x
    rfl
  rw [h3] at h2
  exact h2.trans (map_fst_rawPValues_sublist pv t g1 g2 ev vcs)

instance : IsTrans (ℕ × String × ℚ) rankLE :=
  ⟨by
    intro x y z hxy hyz
    simp only [rankLE] at hxy hyz ⊢
    rcases hxy with h | ⟨he, hi⟩ <;> rcases hyz with h' | ⟨he', hi'⟩
    · exact Or.inl (lt_trans h h')
    · exact Or.inl (he' ▸ h)
    · exact Or.inl (he ▸ h')
    · exact Or.inr ⟨he.trans he', le_trans hi hi'⟩⟩

instance : IsTotal (ℕ × String × ℚ) rankLE :=
  ⟨by
    intro x y
    simp only [rankLE]
    rcases lt_trichotomy x.2.2 y.2.2 with h | h | h
    · exact Or.inl (Or.inl h)
    · rcases Nat.le_total x.1 y.1 with hi | hi
      · exact Or.inl (Or.inr ⟨h, hi⟩)
      · exact Or.inr (Or.inr ⟨h.symm, hi⟩)
    · exact Or.inr (Or.inl h)⟩

lemma sortedRetained_perm (pv : ℚ → ℚ → ℚ) (t : Table) (g1 g2 : String)
    (vcs : List String) (alpha : ℚ) (ev : Bool) :
    List.Perm (sortedRetained pv t g1 g2 vcs alpha ev)
      ((retained pv t g1 g2 vcs alpha ev).enum) :=
  List.perm_insertionSort rankLE _

lemma run_eq_runWithGroups {pv : ℚ → ℚ → ℚ} {t : Table} {gc : String}
    {vcs : List String} {alpha : ℚ} {ev : Bool} {g1 g2 : String}
    (h1 : gc = t.labelName) (h2 : distinctLabels t = [g1, g2])
    (h3 : vcs ≠ []) :
    run_batch_ttest pv t gc vcs alpha ev
      = runWithGroups pv t g1 g2 vcs alpha ev := by
  unfold run_batch_ttest
  rw [if_pos h1, h2]
  exact if_neg h3

lemma runWithGroups_eq {pv : ℚ → ℚ → ℚ} {t : Table} {g1 g2 : String}
    {vcs : List String} {alpha : ℚ} {ev : Bool}
    (h4 : vcs.find? (fun c => (lookupCol t c).isNone) = none) :
    runWithGroups pv t g1 g2 vcs alpha ev
      = if (sortedRetained pv t g1 g2 vcs alpha ev).isEmpty
          then .ok .EmptyResult
          else .ok (.ResultTable
            ((sortedRetained pv t g1 g2 vcs alpha ev).map Prod.snd)) := by
  unfold runWithGroups
  rw [h4]

lemma rows_perm_retained {pv : ℚ → ℚ → ℚ} {t : Table} {g1 g2 : String}
    {vcs : List String} {alpha : ℚ} {ev : Bool} {r : BatchResult}
    (h4 : vcs.find? (fun c => (lookupCol t c).isNone) = none)
    (hr : runWithGroups pv t g1 g2 vcs alpha ev = .ok r) :
    List.Perm r.rows (retained pv t g1 g2 vcs alpha ev) := by
  rw [runWithGroups_eq h4] at hr
  by_cases he : (sortedRetained pv t g1 g2 vcs alpha ev).isEmpty
  · rw [if_pos he] at hr
    obtain rfl : BatchResult.EmptyResult = r := by
      simpa using hr
    have hs : sortedRetained pv t g1 g2 vcs alpha ev = [] :=
      List.isEmpty_iff.mp he
    have hp := sortedRetained_perm pv t g1 g2 vcs alpha ev
    rw [hs] at hp
    have henum : (retained pv t g1 g2 vcs alpha ev).enum = [] := hp.nil_eq.symm
    have hret : retained pv t g1 g2 vcs alpha ev = [] := by
      have := congrArg (List.map Prod.snd) henum
      rwa [List.enum_map_snd] at this
    rw [hret]
    exact List.Perm.nil
  · rw [if_neg he] at hr
    obtain rfl : BatchResult.ResultTable
        ((sortedRetained pv t g1 g2 vcs alpha ev).map Prod.snd) = r := by
      simpa using hr
    show List.Perm ((sortedRetained pv t g1 g2 vcs alpha ev).map Prod.snd)
      (retained pv t g1 g2 vcs alpha ev)
    have hp := (sortedRetained_perm pv t g1 g2 vcs alpha ev).map Prod.snd
    rwa [List.enum_map_snd] at hp

lemma run_ok_inv {pv : ℚ → ℚ → ℚ} {t : Table} {gc : String}
    {vcs : List String} {alpha : ℚ} {ev : Bool} {r : BatchResult}
    (hr : run_batch_ttest pv t gc vcs alpha ev = .ok r) :
    gc = t.labelName ∧ (∃ g1 g2, distinctLabels t = [g1, g2]) ∧ vcs ≠ [] ∧
      vcs.find? (fun c => (lookupCol t c).isNone) = none := by
  unfold run_batch_ttest at hr
  split at hr
  · split at hr
    · split at hr
      · simp at hr
      · rename_i h1 x g1 g2 heq h3
        rcases hf : vcs.find? (fun c => (lookupCol t c).isNone) with _ | c
        · exact ⟨h1, ⟨g1, g2, heq⟩, h3, rfl⟩
        · unfold runWithGroups at hr
          rw [hf] at hr
          simp at hr
    · simp at hr
  · simp at hr

/-! ## Claim theorems -/

/-- C5: whenever the grouping column (present in the table) carries, after
dropping missing entries, a number of distinct values other than exactly two,
`run_batch_ttest` fails with `InvalidGroupingError` and produces no result. -/
theorem run_batch_ttest_invalid_grouping (pv : ℚ → ℚ → ℚ) (t : Table)
    (group_column : String) (vcs : List String) (alpha : ℚ) (ev : Bool)
    (h1 : group_column = t.labelName)
    (h2 : (distinctLabels t).length ≠ 2) :
    run_batch_ttest pv t group_column vcs alpha ev
      = .error .InvalidGroupingError := by
  unfold run_batch_ttest
  rw [if_pos h1]
  rcases hd : distinctLabels t with _ | ⟨a, _ | ⟨b, _ | ⟨c, tl⟩⟩⟩
  · rfl
  · rfl
  · rw [hd] at h2
    simp at h2
  · rfl

/-- Witness for C5: a grouping column with three distinct labels makes the
call fail with `InvalidGroupingError`. -/
theorem run_batch_ttest_invalid_grouping_witness :
    "G" = tblThree.labelName ∧ (distinctLabels tblThree).length ≠ 2 ∧
      run_batch_ttest pvDemo tblThree "G" ["X"] (1/20) false
        = .error .InvalidGroupingError :=
  ⟨rfl, by decide,
    run_batch_ttest_invalid_grouping pvDemo tblThree "G" ["X"] (1/20) false
      rfl (by decide)⟩

/-- C9: the engine does not mutate the caller's table: run as a stateful
computation over the caller-owned table, it returns the pure result and
leaves the table exactly as it was. -/
theorem run_batch_ttest_no_mutation (pv : ℚ → ℚ → ℚ) (group_column : String)
    (vcs : List String) (alpha : ℚ) (ev : Bool) (t : Table) :
    (run_batch_ttest_m pv group_column vcs alpha ev).run t
      = (run_batch_ttest pv t group_column vcs alpha ev, t) := by
  unfold run_batch_ttest_m run_batch_ttest
  by_cases h1 : group_column = t.labelName <;>
    rcases hd : distinctLabels t with _ | ⟨a, _ | ⟨b, _ | ⟨c, tl⟩⟩⟩ <;>
      by_cases h3 : vcs = [] <;>
        simp [StateT.run_bind, StateT.run_get, StateT.run_pure, StateT.run_map,
          pure_bind, h1, h3, hd]

/-- C8: swapping which of the two group labels is treated as the first group
changes neither any column's p-value nor the engine's result (set and
ordering). -/
theorem runWithGroups_group_symm (pv : ℚ → ℚ → ℚ) (t : Table)
    (g1 g2 : String) (vcs : List String) (alpha : ℚ) (ev : Bool) :
    runWithGroups pv t g1 g2 vcs alpha ev
        = runWithGroups pv t g2 g1 vcs alpha ev
    ∧ ∀ col : List Cell,
        colPValue pv ev t.labels g1 g2 col
          = colPValue pv ev t.labels g2 g1 col := by
  constructor
  · unfold runWithGroups
    rw [sortedRetained_symm]
  · intro col
    exact colPValue_symm pv ev t.labels g1 g2 col

/-- C10: the notebook's binarization loop gives every row one of exactly two
labels — `Mutated` when the row's mutation status differs from
`Wildtype_Tumor`, `Wildtype` otherwise — so the grouping column contains at
most two distinct non-missing values. -/
theorem binarized_labels_binary (statuses : List (Option String)) (i : ℕ)
    (s : Option String) (h : statuses[i]? = some s) :
    (∀ x ∈ binarizedLabels statuses,
        x = some "Mutated" ∨ x = some "Wildtype")
    ∧ ((binarizedLabels statuses).filterMap id).dedup.length ≤ 2
    ∧ (binarizedLabels statuses)[i]? =
        some (some (if s = some "Wildtype_Tumor"
          then "Wildtype" else "Mutated")) := by
  refine ⟨?_, ?_, ?_⟩
  · intro x hx
    simp only [binarizedLabels, List.mem_map] at hx
    obtain ⟨s', _, rfl⟩ := hx
    by_cases hs : s' = some "Wildtype_Tumor" <;> simp [binarizeStatus, hs]
  · apply length_dedup_le_two _ "Mutated" "Wildtype"
    intro x hx
    simp only [binarizedLabels, List.mem_filterMap, List.mem_map, id] at hx
    obtain ⟨y, ⟨s', _, rfl⟩, hy⟩ := hx
    cases hy
    by_cases hs : s' = some "Wildtype_Tumor" <;> simp [binarizeStatus, hs]
  · rw [binarizedLabels, List.getElem?_map, h]
    by_cases hs : s = some "Wildtype_Tumor" <;> simp [binarizeStatus, hs]

/-- Witness for C10: the binarization rule evaluated on a concrete
mutation-status column. -/
theorem binarized_labels_binary_witness :
    ([some "Wildtype_Tumor", some "Missense", none]
        : List (Option String))[0]? = some (some "Wildtype_Tumor")
    ∧ ((∀ x ∈ binarizedLabels [some "Wildtype_Tumor", some "Missense", none],
          x = some "Mutated" ∨ x = some "Wildtype")
      ∧ ((binarizedLabels
            [some "Wildtype_Tumor", some "Missense", none]).filterMap
              id).dedup.length ≤ 2
      ∧ (binarizedLabels [some "Wildtype_Tumor", some "Missense", none])[0]? =
          some (some (if (some "Wildtype_Tumor" : Option String)
              = some "Wildtype_Tumor" then "Wildtype" else "Mutated"))) :=
  ⟨rfl, binarized_labels_binary _ 0 _ rfl⟩

/-- C1: in every successful call, a column is retained in the result exactly
when its raw p-value times the number of columns actually tested is at most
`alpha`, equivalently when its raw p-value is at most `alpha` divided by that
count. -/
theorem run_batch_ttest_bonferroni (pv : ℚ → ℚ → ℚ) (t : Table)
    (group_column : String) (vcs : List String) (alpha : ℚ) (ev : Bool)
    (g1 g2 : String) (r : BatchResult) (c : String)
    (h2 : distinctLabels t = [g1, g2])
    (hr : run_batch_ttest pv t group_column vcs alpha ev = .ok r) :
    (∃ q, (c, q) ∈ r.rows) ↔
      ∃ p, (c, p) ∈ rawPValues pv t g1 g2 vcs ev ∧
        p * ((rawPValues pv t g1 g2 vcs ev).length : ℚ) ≤ alpha ∧
        p ≤ alpha / ((rawPValues pv t g1 g2 vcs ev).length : ℚ) := by
  obtain ⟨h1, _, h3, h4⟩ := run_ok_inv hr
  rw [run_eq_runWithGroups h1 h2 h3] at hr
  have hperm := rows_perm_retained h4 hr
  constructor
  · rintro ⟨q, hq⟩
    obtain ⟨p, hp, rfl, hle⟩ := mem_retained.mp (hperm.mem_iff.mp hq)
    refine ⟨p, hp, hle, ?_⟩
    have hpos : (0 : ℚ) < ((rawPValues pv t g1 g2 vcs ev).length : ℚ) := by
      have hne : rawPValues pv t g1 g2 vcs ev ≠ [] := by
        rintro hnil
        rw [hnil] at hp
        simp at hp
      exact_mod_cast List.length_pos.mpr hne
    rw [le_div_iff₀ hpos]
    exact hle
  · rintro ⟨p, hp, hle, _⟩
    exact ⟨p * ((rawPValues pv t g1 g2 vcs ev).length : ℚ),
      hperm.mem_iff.mpr (mem_retained.mpr ⟨p, hp, rfl, hle⟩)⟩

/-- Witness for C1: the Bonferroni characterization evaluated on a concrete
table. -/
theorem run_batch_ttest_bonferroni_witness :
    distinctLabels tblTiny = ["A", "B"]
    ∧ run_batch_ttest pvDemo tblTiny "G" ["X"] 0 false = .ok .EmptyResult
    ∧ ((∃ q, ("X", q) ∈ BatchResult.EmptyResult.rows) ↔
        ∃ p, ("X", p) ∈ rawPValues pvDemo tblTiny "A" "B" ["X"] false ∧
          p * ((rawPValues pvDemo tblTiny "A" "B" ["X"] false).length : ℚ)
              ≤ 0 ∧
          p ≤ 0 / ((rawPValues pvDemo tblTiny "A" "B" ["X"] false).length
              : ℚ)) :=
  ⟨by decide, by decide,
    run_batch_ttest_bonferroni pvDemo tblTiny "G" ["X"] 0 false
      "A" "B" .EmptyResult "X" (by decide) (by decide)⟩

/-- C3: an untestable column — fewer than 2 non-missing values in either
group, or zero sample variance in both groups — is skipped: the batch still
completes with a result and the column contributes no row to it. -/
theorem run_batch_ttest_skips_untestable (pv : ℚ → ℚ → ℚ) (t : Table)
    (group_column : String) (vcs : List String) (alpha : ℚ) (ev : Bool)
    (g1 g2 : String) (c : String) (col : List Cell)
    (h1 : group_column = t.labelName)
    (h2 : distinctLabels t = [g1, g2])
    (h3 : vcs ≠ [])
    (h4 : vcs.find? (fun x => (lookupCol t x).isNone) = none)
    (_hm : c ∈ vcs)
    (hcol : lookupCol t c = some col)
    (hun : (groupVals t.labels g1 col).length < 2
      ∨ (groupVals t.labels g2 col).length < 2
      ∨ (svar (groupVals t.labels g1 col) = 0
          ∧ svar (groupVals t.labels g2 col) = 0)) :
    ∃ r, run_batch_ttest pv t group_column vcs alpha ev = .ok r
      ∧ ∀ p : ℚ, (c, p) ∉ r.rows := by
  have htest : testable (groupVals t.labels g1 col)
      (groupVals t.labels g2 col) = false := by
    unfold testable
    simp only [decide_eq_false_iff_not]
    rintro ⟨⟨hla, hlb⟩, hnv⟩
    rcases hun with h | h | h
    · omega
    · omega
    · exact hnv h
  have hskip : colPValue pv ev t.labels g1 g2 col = none := by
    simp only [colPValue, htest]
    rfl
  obtain ⟨r, hr⟩ : ∃ r, runWithGroups pv t g1 g2 vcs alpha ev = .ok r := by
    rw [runWithGroups_eq h4]
    by_cases he : (sortedRetained pv t g1 g2 vcs alpha ev).isEmpty
    · exact ⟨_, by rw [if_pos he]⟩
    · exact ⟨_, by rw [if_neg he]⟩
  refine ⟨r, by rw [run_eq_runWithGroups h1 h2 h3]; exact hr, ?_⟩
  intro p hp
  obtain ⟨p', hp', _, _⟩ :=
    mem_retained.mp ((rows_perm_retained h4 hr).mem_iff.mp hp)
  obtain ⟨_, col', hcol', hpv⟩ := mem_rawPValues.mp hp'
  rw [hcol] at hcol'
  obtain rfl : col = col' := by
    simpa using hcol'
  rw [hskip] at hpv
  exact Option.noConfusion hpv

/-- Witness for C3: a column with a single non-missing value per group is
skipped and absent from the result. -/
theorem run_batch_ttest_skips_untestable_witness :
    "G" = tblTiny.labelName
    ∧ distinctLabels tblTiny = ["A", "B"]
    ∧ (["X"] : List String) ≠ []
    ∧ (["X"] : List String).find?
        (fun x => (lookupCol tblTiny x).isNone) = none
    ∧ "X" ∈ (["X"] : List String)
    ∧ lookupCol tblTiny "X" = some [some 1, some 2]
    ∧ (groupVals tblTiny.labels "A" [some 1, some 2]).length < 2
    ∧ ∃ r, run_batch_ttest pvDemo tblTiny "G" ["X"] 0 false = .ok r
        ∧ ∀ p : ℚ, ("X", p) ∉ r.rows :=
  ⟨rfl, by decide, by decide, by decide, by decide, by decide, by decide,
    run_batch_ttest_skips_untestable pvDemo tblTiny "G" ["X"] 0
      false "A" "B" "X" [some 1, some 2]
      rfl (by decide) (by decide) (by decide) (by decide) (by decide)
      (Or.inl (by decide))⟩

/-- C4: when every tested column misses the corrected threshold, the call
returns the `EmptyResult` sentinel — not an error — and that sentinel is
distinguishable from every present result. -/
theorem run_batch_ttest_empty_sentinel (pv : ℚ → ℚ → ℚ) (t : Table)
    (group_column : String) (vcs : List String) (alpha : ℚ) (ev : Bool)
    (g1 g2 : String)
    (h1 : group_column = t.labelName)
    (h2 : distinctLabels t = [g1, g2])
    (h3 : vcs ≠ [])
    (h4 : vcs.find? (fun x => (lookupCol t x).isNone) = none)
    (h5 : ∀ x ∈ rawPValues pv t g1 g2 vcs ev,
        alpha < x.2 * ((rawPValues pv t g1 g2 vcs ev).length : ℚ)) :
    run_batch_ttest pv t group_column vcs alpha ev = .ok .EmptyResult
    ∧ ∀ rows : List (String × ℚ),
        BatchResult.EmptyResult ≠ BatchResult.ResultTable rows := by
  have hret : retained pv t g1 g2 vcs alpha ev = [] := by
    unfold retained
    rw [List.filter_eq_nil_iff]
    rintro ⟨c, q⟩ hmem
    simp only [List.mem_map] at hmem
    obtain ⟨x, hx, heq⟩ := hmem
    obtain ⟨rfl, rfl⟩ : c = x.1 ∧ q = x.2 *
        ((rawPValues pv t g1 g2 vcs ev).length : ℚ) := by
      obtain ⟨h1', h2'⟩ := Prod.mk.injEq .. ▸ heq
      exact ⟨h1'.symm, h2'.symm⟩
    simp only [decide_eq_true_eq, not_le]
    exact h5 x hx
  have hsort : sortedRetained pv t g1 g2 vcs alpha ev = [] := by
    have hp := sortedRetained_perm pv t g1 g2 vcs alpha ev
    rw [hret, List.enum_nil] at hp
    exact hp.eq_nil
  refine ⟨?_, fun rows h => BatchResult.noConfusion h⟩
  rw [run_eq_runWithGroups h1 h2 h3, runWithGroups_eq h4, hsort]
  rfl

/-- Witness for C4: no column is tested on the tiny table, so no column
passes and the sentinel is returned. -/
theorem run_batch_ttest_empty_sentinel_witness :
    "G" = tblTiny.labelName
    ∧ distinctLabels tblTiny = ["A", "B"]
    ∧ (["X"] : List String) ≠ []
    ∧ (["X"] : List String).find?
        (fun x => (lookupCol tblTiny x).isNone) = none
    ∧ (∀ x ∈ rawPValues pvDemo tblTiny "A" "B" ["X"] false,
        (0 : ℚ) < x.2 * ((rawPValues pvDemo tblTiny "A" "B"
          ["X"] false).length : ℚ))
    ∧ run_batch_ttest pvDemo tblTiny "G" ["X"] 0 false = .ok .EmptyResult
    ∧ ∀ rows : List (String × ℚ),
        BatchResult.EmptyResult ≠ BatchResult.ResultTable rows :=
  ⟨rfl, by decide, by decide, by decide, by decide,
    (run_batch_ttest_empty_sentinel pvDemo tblTiny "G" ["X"] 0
      false "A" "B" rfl (by decide) (by decide) (by decide)
      (by decide)).1,
    (run_batch_ttest_empty_sentinel pvDemo tblTiny "G" ["X"] 0
      false "A" "B" rfl (by decide) (by decide) (by decide)
      (by decide)).2⟩

/-- Counterexample for C6: when the grouping column is present but carries
three distinct labels, a call whose `value_columns` names an absent column
fails with `InvalidGroupingError`, not with `ColumnNotFoundError` naming that
column — grouping validation precedes value-column lookup. -/
theorem run_batch_ttest_colnotfound_cex :
    ("Y" ∈ (["Y"] : List String) ∧ lookupCol tblThree "Y" = none)
    ∧ run_batch_ttest pvDemo tblThree "G" ["Y"] 0 false
        = .error .InvalidGroupingError
    ∧ run_batch_ttest pvDemo tblThree "G" ["Y"] 0 false
        ≠ .error (.ColumnNotFoundError "Y") := by
  decide

/-- C6 (amended): provided the grouping column, when present, carries exactly
two distinct non-missing labels, a call referencing an absent column — the
grouping column itself, or a name in `value_columns` — fails with a
`ColumnNotFoundError` naming an offending column. -/
theorem run_batch_ttest_colnotfound (pv : ℚ → ℚ → ℚ) (t : Table)
    (group_column : String) (vcs : List String) (alpha : ℚ) (ev : Bool)
    (hbin : group_column = t.labelName → (distinctLabels t).length = 2)
    (habs : group_column ≠ t.labelName ∨ ∃ c ∈ vcs, lookupCol t c = none) :
    ∃ name, run_batch_ttest pv t group_column vcs alpha ev
        = .error (.ColumnNotFoundError name)
      ∧ ((name = group_column ∧ group_column ≠ t.labelName)
        ∨ (name ∈ vcs ∧ lookupCol t name = none)) := by
  by_cases h1 : group_column = t.labelName
  · rcases habs with h | ⟨c, hc, hcol⟩
    · exact absurd h1 h
    · obtain ⟨g1, g2, hd⟩ := List.length_eq_two.mp (hbin h1)
      have h3 : vcs ≠ [] := by
        rintro rfl
        simp at hc
      have hfs : (vcs.find? (fun x => (lookupCol t x).isNone)).isSome :=
        List.find?_isSome.mpr ⟨c, hc, by simp [hcol]⟩
      obtain ⟨c0, hf⟩ := Option.isSome_iff_exists.mp hfs
      have hc0 : c0 ∈ vcs := List.mem_of_find?_eq_some hf
      have hc0n : lookupCol t c0 = none := by
        have hp := List.find?_some hf
        simpa using hp
      refine ⟨c0, ?_, Or.inr ⟨hc0, hc0n⟩⟩
      rw [run_eq_runWithGroups h1 hd h3]
      unfold runWithGroups
      rw [hf]
  · refine ⟨group_column, ?_, Or.inl ⟨rfl, h1⟩⟩
    unfold run_batch_ttest
    rw [if_neg h1]

/-- Witness for the amended C6: a valid two-label table with a request naming
an absent column. -/
theorem run_batch_ttest_colnotfound_witness :
    ("G" = tblTiny.labelName → (distinctLabels tblTiny).length = 2)
    ∧ ("G" ≠ tblTiny.labelName
        ∨ ∃ c ∈ (["Y"] : List String), lookupCol tblTiny c = none)
    ∧ ∃ name, run_batch_ttest pvDemo tblTiny "G" ["Y"] 0 false
          = .error (.ColumnNotFoundError name)
        ∧ ((name = "G" ∧ "G" ≠ tblTiny.labelName)
          ∨ (name ∈ (["Y"] : List String) ∧ lookupCol tblTiny name = none)) :=
  ⟨fun _ => by decide, Or.inr ⟨"Y", by decide, by decide⟩,
    run_batch_ttest_colnotfound pvDemo tblTiny "G" ["Y"] 0 false
      (fun _ => by decide) (Or.inr ⟨"Y", by decide, by decide⟩)⟩

/-- C7: enlarging `alpha` can only enlarge the result set — every retained
(column, corrected p-value) row at the smaller threshold is retained at the
larger one. -/
theorem run_batch_ttest_alpha_mono (pv : ℚ → ℚ → ℚ) (t : Table)
    (group_column : String) (vcs : List String) (ev : Bool)
    (a1 a2 : ℚ) (r1 : BatchResult)
    (hle : a1 ≤ a2)
    (hr1 : run_batch_ttest pv t group_column vcs a1 ev = .ok r1) :
    ∃ r2, run_batch_ttest pv t group_column vcs a2 ev = .ok r2
      ∧ ∀ x ∈ r1.rows, x ∈ r2.rows := by
  obtain ⟨h1, ⟨g1, g2, hd⟩, h3, h4⟩ := run_ok_inv hr1
  rw [run_eq_runWithGroups h1 hd h3] at hr1
  obtain ⟨r2, hr2⟩ : ∃ r2, runWithGroups pv t g1 g2 vcs a2 ev = .ok r2 := by
    rw [runWithGroups_eq h4]
    by_cases he : (sortedRetained pv t g1 g2 vcs a2 ev).isEmpty
    · exact ⟨_, by rw [if_pos he]⟩
    · exact ⟨_, by rw [if_neg he]⟩
  refine ⟨r2, by rw [run_eq_runWithGroups h1 hd h3]; exact hr2, ?_⟩
  intro x hx
  have hx1 := (rows_perm_retained h4 hr1).mem_iff.mp hx
  apply (rows_perm_retained h4 hr2).mem_iff.mpr
  obtain ⟨c, q⟩ := x
  obtain ⟨p, hp, hq, hle1⟩ := mem_retained.mp hx1
  exact mem_retained.mpr ⟨p, hp, hq, le_trans hle1 hle⟩

/-- Witness for C7: raising the threshold from 0 to 1 preserves the result
rows of a successful call. -/
theorem run_batch_ttest_alpha_mono_witness :
    (0 : ℚ) ≤ 1
    ∧ run_batch_ttest pvDemo tblTiny "G" ["X"] 0 false = .ok .EmptyResult
    ∧ ∃ r2, run_batch_ttest pvDemo tblTiny "G" ["X"] 1 false = .ok r2
        ∧ ∀ x ∈ BatchResult.EmptyResult.rows, x ∈ r2.rows :=
  ⟨zero_le_one, by decide,
    run_batch_ttest_alpha_mono pvDemo tblTiny "G" ["X"] false 0 1
      .EmptyResult zero_le_one (by decide)⟩

/-- C2: a non-empty result lists exactly the ranked retained columns: it
projects the sorted indexed retained sequence, which is a permutation of the
indexed retained columns, is strictly ordered by (corrected p-value, then
original position), and the retained columns themselves follow the order of
`value_columns`. -/
theorem run_batch_ttest_sorted (pv : ℚ → ℚ → ℚ) (t : Table)
    (group_column : String) (vcs : List String) (alpha : ℚ) (ev : Bool)
    (g1 g2 : String) (res : List (String × ℚ))
    (h2 : distinctLabels t = [g1, g2])
    (hr : run_batch_ttest pv t group_column vcs alpha ev
        = .ok (.ResultTable res)) :
    res = (sortedRetained pv t g1 g2 vcs alpha ev).map Prod.snd
    ∧ List.Perm (sortedRetained pv t g1 g2 vcs alpha ev)
        ((retained pv t g1 g2 vcs alpha ev).enum)
    ∧ (sortedRetained pv t g1 g2 vcs alpha ev).Pairwise
        (fun x y => x.2.2 < y.2.2 ∨ (x.2.2 = y.2.2 ∧ x.1 < y.1))
    ∧ ((retained pv t g1 g2 vcs alpha ev).map Prod.fst).Sublist vcs := by
  obtain ⟨h1, _, h3, h4⟩ := run_ok_inv hr
  rw [run_eq_runWithGroups h1 h2 h3, runWithGroups_eq h4] at hr
  by_cases he : (sortedRetained pv t g1 g2 vcs alpha ev).isEmpty
  · rw [if_pos he] at hr
    exact absurd hr (by simp)
  · rw [if_neg he] at hr
    have hres : res
        = (sortedRetained pv t g1 g2 vcs alpha ev).map Prod.snd := by
      have h' := hr
      simp only [Except.ok.injEq, BatchResult.ResultTable.injEq] at h'
      exact h'.symm
    refine ⟨hres, sortedRetained_perm pv t g1 g2 vcs alpha ev, ?_,
      map_fst_retained_sublist pv t g1 g2 vcs alpha ev⟩
    have hsorted : (sortedRetained pv t g1 g2 vcs alpha ev).Pairwise rankLE :=
      List.sorted_insertionSort rankLE _
    have hnodup : ((sortedRetained pv t g1 g2 vcs alpha ev).map
        Prod.fst).Nodup := by
      have hp := (sortedRetained_perm pv t g1 g2 vcs alpha ev).map Prod.fst
      rw [List.enum_map_fst] at hp
      exact hp.nodup_iff.mpr (List.nodup_range _)
    have hne : (sortedRetained pv t g1 g2 vcs alpha ev).Pairwise
        (fun x y => x.1 ≠ y.1) := List.pairwise_map.mp hnodup
    refine List.Pairwise.imp ?_ (hsorted.and hne)
    intro a b hab
    obtain ⟨hab1, hne'⟩ := hab
    simp only [rankLE] at hab1
    rcases hab1 with h | ⟨heq, hle'⟩
    · exact Or.inl h
    · exact Or.inr ⟨heq, lt_of_le_of_ne hle' hne'⟩

/-- Witness for C2: the ranked-result characterization on a concrete table
with one testable, significant column. -/
theorem run_batch_ttest_sorted_witness :
    distinctLabels tblTwo = ["A", "B"]
    ∧ run_batch_ttest pvHalf tblTwo "G" ["X"] 1 false
        = .ok (.ResultTable [("X", 1/2)])
    ∧ ([("X", (1 : ℚ)/2)]
          = (sortedRetained pvHalf tblTwo "A" "B" ["X"] 1 false).map Prod.snd
      ∧ List.Perm (sortedRetained pvHalf tblTwo "A" "B" ["X"] 1 false)
          ((retained pvHalf tblTwo "A" "B" ["X"] 1 false).enum)
      ∧ (sortedRetained pvHalf tblTwo "A" "B" ["X"] 1 false).Pairwise
          (fun x y => x.2.2 < y.2.2 ∨ (x.2.2 = y.2.2 ∧ x.1 < y.1))
      ∧ ((retained pvHalf tblTwo "A" "B" ["X"] 1
            false).map Prod.fst).Sublist ["X"]) := by
  have hrun : run_batch_ttest pvHalf tblTwo "G" ["X"] 1 false
      = .ok (.ResultTable [("X", 1/2)]) := by
    have hsvA : svar [(0 : ℚ), 2] = 2 := by norm_num [svar, mean]
    have hgA : groupVals tblTwo.labels "A" [some 0, some 2, some 0, some 1]
        = [0, 2] := by decide
    have hgB : groupVals tblTwo.labels "B" [some 0, some 2, some 0, some 1]
        = [0, 1] := by decide
    have htest : testable [(0 : ℚ), 2] [(0 : ℚ), 1] = true := by
      simp only [testable, decide_eq_true_eq, hsvA]
      norm_num
    have hcolp : colPValue pvHalf false tblTwo.labels "A" "B"
        [some 0, some 2, some 0, some 1] = some (1/2) := by
      simp only [colPValue, hgA, hgB, htest, if_true, pvHalf]
    have hlk : lookupCol tblTwo "X"
        = some [some 0, some 2, some 0, some 1] := by decide
    have hraw : rawPValues pvHalf tblTwo "A" "B" ["X"] false
        = [("X", 1/2)] := by
      simp [rawPValues, hlk, hcolp]
    have hret : retained pvHalf tblTwo "A" "B" ["X"] 1 false
        = [("X", 1/2)] := by
      simp only [retained, hraw]
      norm_num
    have hsort : sortedRetained pvHalf tblTwo "A" "B" ["X"] 1 false
        = [(0, ("X", 1/2))] := by
      simp [sortedRetained, hret, List.enum, List.enumFrom]
    have hdl : distinctLabels tblTwo = ["A", "B"] := by decide
    rw [run_eq_runWithGroups (show "G" = tblTwo.labelName from rfl) hdl
      (by decide), runWithGroups_eq (by decide), hsort]
    rfl
  exact ⟨by decide, hrun,
    run_batch_ttest_sorted pvHalf tblTwo "G" ["X"] 1 false "A" "B"
      [("X", 1/2)] (by decide) hrun⟩

end Cptac
